import Mathlib

/-!
Shallow embedding of `photo_cluster_router.py` (repository `photo_st`).

The embedding models the pure routing logic of `route_by_clusters`, the
empty-input guard of `cluster_faces`, the record construction of
`collect_faces`, and the control flow of `main`.  External collaborators
(the insightface detector, OpenCV pixel computations, sklearn's DBSCAN)
are modelled as oracle parameters: their outputs are inputs to the model.
Floating-point payloads that the routing logic never inspects
(`det_score`, `bbox`, `embedding`) are carried as opaque integer data.

File-system state under the output root is modelled as the set of
destination files `(bucket directory, file name)`; `shutil.copy2` guarded
by `dst.exists()` is modelled by `execOps` (and by `execOpsE` when a copy
is allowed to fail, since the Python code wraps no `try` around
`shutil.copy2`).
-/

namespace PhotoRouter

/-- A source-image path: directory components, stem and extension.
Mirrors `pathlib.Path` as used by the router: `p.name = p.stem + p.suffix`. -/
structure ImgPath where
  dir : List String
  stem : String
  ext : String
deriving DecidableEq, Repr

/-- `Path.name` in `pathlib`: stem followed by the extension. -/
def ImgPath.name (p : ImgPath) : String := p.stem ++ p.ext

/-- `FaceRec` dataclass of `photo_cluster_router.py`.  `bbox`, `det_score`
and `embedding` are float data in the source, never inspected by the
routing logic; they are carried here as opaque integers. -/
structure FaceRec where
  img_path : ImgPath
  face_index : Nat
  faces_in_image : Nat
  bbox : List Int
  det_score : Int
  embedding : List Int
deriving DecidableEq, Repr

/-- Keys of an insertion-ordered dictionary (Python `dict.setdefault`
in `route_by_clusters`): each key once, in order of first occurrence. -/
def firstKeys {α : Type} [DecidableEq α] : List α → List α
  | [] => []
  | a :: l => a :: (firstKeys l).filter (fun x => decide (x ≠ a))

/-- A single copy decision: source image, destination bucket directory
(under the output root) and destination file name. -/
structure CopyOp where
  src : ImgPath
  bucket : String
  fname : String
deriving DecidableEq, Repr

/-- A destination file under the output root: (bucket directory, file name). -/
abbrev Dst := String × String

/-- Destination path of a copy. -/
def CopyOp.dst (op : CopyOp) : Dst := (op.bucket, op.fname)

/-- Execute a list of copies against a file set, with the source's
existence check `if not (dst.exists() and dst.is_file()): shutil.copy2`.
Returns the final file set and the list of physically performed copies. -/
def execOps : List Dst → List CopyOp → List Dst × List CopyOp
  | fs, [] => (fs, [])
  | fs, op :: rest =>
    if op.dst ∈ fs then execOps fs rest
    else
      let r := execOps (op.dst :: fs) rest
      (r.1, op :: r.2)

/-- Copy execution when a copy may fail: `shutil.copy2` has no `try`
around it in `route_by_clusters`, so the first failing copy raises and
nothing after it runs.  `fails` is the oracle deciding which physical
copies raise. -/
def execOpsE (fails : Dst → Bool) : List Dst → List CopyOp → Except Dst (List Dst × List CopyOp)
  | fs, [] => Except.ok (fs, [])
  | fs, op :: rest =>
    if op.dst ∈ fs then execOpsE fails fs rest
    else if fails op.dst then Except.error op.dst
    else Except.map (fun r => (r.1, op :: r.2)) (execOpsE fails (op.dst :: fs) rest)

/-! ## The routing engine (`route_by_clusters`)

`pairs` is `zip(records, labels)`: each detected face with its DBSCAN
cluster label, `-1` denoting noise. -/

/-- Keys of `image_indices` (a `dict` keyed by `rec.img_path`):
distinct source images, in order of first occurrence among the records. -/
def imageKeys (pairs : List (FaceRec × Int)) : List ImgPath :=
  firstKeys (pairs.map (fun p => p.1.img_path))

/-- `labs_on_image`: the set of cluster labels appearing among the
records of one source image. -/
def labsOnImage (pairs : List (FaceRec × Int)) (src : ImgPath) : List Int :=
  firstKeys ((pairs.filter (fun p => decide (p.1.img_path = src))).map (fun p => p.2))

/-- Cluster eligibility: a non-noise label such that some member record
has `faces_in_image <= group_thr` (the `any(...)` test over
`cluster_indices[lab]` in the source). -/
def isEligibleB (pairs : List (FaceRec × Int)) (thr : Int) (lab : Int) : Bool :=
  decide (lab ≠ -1) &&
    pairs.any (fun p => decide (p.2 = lab) && decide ((p.1.faces_in_image : Int) ≤ thr))

/-- `eligible_clusters`: the eligible labels among those present in the
records (keys of `cluster_indices`), first-occurrence order standing in
for the Python `set`. -/
def eligiblePresent (pairs : List (FaceRec × Int)) (thr : Int) : List Int :=
  (firstKeys (pairs.map (fun p => p.2))).filter (isEligibleB pairs thr)

/-- `eligible_sorted = sorted(eligible_clusters)`. -/
def eligSorted (pairs : List (FaceRec × Int)) (thr : Int) : List Int :=
  (eligiblePresent pairs thr).insertionSort (· ≤ ·)

/-- Zero-padding of `%03d` in the Python format string. -/
def pad3 (n : Nat) : String :=
  if n < 10 then "00" ++ toString n
  else if n < 100 then "0" ++ toString n
  else toString n

/-- `cluster_to_name`: the i-th smallest eligible label gets the name
`person_` followed by the zero-padded index. -/
def clusterToName (pairs : List (FaceRec × Int)) (thr : Int) : List (Int × String) :=
  (eligSorted pairs thr).enum.map (fun p => (p.2, "person_" ++ pad3 p.1))

/-- Folder-name lookup `cluster_to_name[lab]` (total, defaulting to the
empty string; routing only looks up labels that are present). -/
def nameOf (pairs : List (FaceRec × Int)) (thr : Int) (lab : Int) : String :=
  ((clusterToName pairs thr).lookup lab).getD ""

/-- Person-folder copies triggered by one source image: one copy per
eligible label on the image, destination name
`stem + "__" + person + suffix`.  Each image key occurs once and the
labels on it are deduplicated, so each `(person, image)` pair is
generated at most once — the `copied_person_image` guard of the source
can never fire and is represented by this shape. -/
def personOpsFor (pairs : List (FaceRec × Int)) (thr : Int) (src : ImgPath) : List CopyOp :=
  ((labsOnImage pairs src).filter (isEligibleB pairs thr)).map
    (fun lab =>
      let n := nameOf pairs thr lab
      ⟨src, n, src.stem ++ "__" ++ n ++ src.ext⟩)

/-- All person-folder copies, in per-image order. -/
def personOps (pairs : List (FaceRec × Int)) (thr : Int) : List CopyOp :=
  (imageKeys pairs).flatMap (personOpsFor pairs thr)

/-- Does some ineligible non-noise label appear on the image?
(`if ineligible_on_image:` in the source.) -/
def groupPred (pairs : List (FaceRec × Int)) (thr : Int) (src : ImgPath) : Bool :=
  (labsOnImage pairs src).any
    (fun l => decide (l ≠ -1) && !(isEligibleB pairs thr l))

/-- `staged_group_only`: images staged for the shared group-only bucket,
the Python set modelled in first-staging order. -/
def groupStaged (pairs : List (FaceRec × Int)) (thr : Int) : List ImgPath :=
  (imageKeys pairs).filter (groupPred pairs thr)

/-- Does the image carry no non-noise label at all?
(`if not has_any_cluster:` in the source.) -/
def unknownPred (pairs : List (FaceRec × Int)) (src : ImgPath) : Bool :=
  (labsOnImage pairs src).all (fun l => decide (l = -1))

/-- `staged_unknown`: images staged for the shared unknown bucket. -/
def unknownStaged (pairs : List (FaceRec × Int)) : List ImgPath :=
  (imageKeys pairs).filter (unknownPred pairs)

/-- Flushed group-only copies: destination name is the unmodified
original basename. -/
def groupOps (pairs : List (FaceRec × Int)) (thr : Int) : List CopyOp :=
  (groupStaged pairs thr).map (fun src => ⟨src, "__group_only__", src.name⟩)

/-- Flushed unknown copies: destination name is the unmodified
original basename. -/
def unknownOps (pairs : List (FaceRec × Int)) : List CopyOp :=
  (unknownStaged pairs).map (fun src => ⟨src, "__unknown__", src.name⟩)

/-- Every copy of one routing run, in the order the source performs them:
person copies during the per-image loop, then the group-only flush, then
the unknown flush. -/
def allOps (pairs : List (FaceRec × Int)) (thr : Int) : List CopyOp :=
  personOps pairs thr ++ groupOps pairs thr ++ unknownOps pairs

/-- One row of `clustering_report.csv` (after the header). -/
structure LogRow where
  file : String
  assigned_folder : String
  face_index : Nat
  faces_in_image : Nat
  det_score : Int
  reason : String
deriving DecidableEq, Repr

/-- Report rows contributed by one source image, in the source's
append order: eligible-person rows, then group-only rows, then
noise-only rows. -/
def logRowsFor (pairs : List (FaceRec × Int)) (thr : Int) (src : ImgPath) : List LogRow :=
  (((labsOnImage pairs src).filter (isEligibleB pairs thr)).flatMap
    (fun lab =>
      ((pairs.filter (fun p => decide (p.1.img_path = src) && decide (p.2 = lab))).map
        (fun p => ⟨src.name, nameOf pairs thr lab, p.1.face_index,
                   p.1.faces_in_image, p.1.det_score, "eligible_person_image"⟩))))
  ++ (if groupPred pairs thr src then
        (pairs.filter (fun p => decide (p.1.img_path = src)
            && decide (p.2 ≠ -1) && !(isEligibleB pairs thr p.2))).map
          (fun p => ⟨src.name, "__group_only__", p.1.face_index,
                     p.1.faces_in_image, p.1.det_score, "group_only_person_on_image"⟩)
      else [])
  ++ (if unknownPred pairs src then
        (pairs.filter (fun p => decide (p.1.img_path = src) && decide (p.2 = -1))).map
          (fun p => ⟨src.name, "__unknown__", p.1.face_index,
                     p.1.faces_in_image, p.1.det_score, "noise_only_image"⟩)
      else [])

/-- The full report body. -/
def routeLog (pairs : List (FaceRec × Int)) (thr : Int) : List LogRow :=
  (imageKeys pairs).flatMap (logRowsFor pairs thr)

/-- Destination of the report file written at the end of every run. -/
def reportDst : Dst := ("", "clustering_report.csv")

/-- Insert into a file set if absent (re-writing an existing path leaves
the set of files unchanged). -/
def addFile (fs : List Dst) (d : Dst) : List Dst :=
  if d ∈ fs then fs else d :: fs

/-- Result of one `route_by_clusters` call. -/
structure RouteResult where
  dirs : List (List String)
  fs : List Dst
  copies : List CopyOp
  log : List LogRow
  names : List (Int × String)
  eligible : List Int
deriving Repr

/-- `route_by_clusters(records, labels, out_dir, group_thr)`.
`dirs` lists the directories passed to `ensure_dir`, as paths relative to
the output root (`[]` is the root itself), in call order; `fs0` is the
set of files already under the output root; `fs` the set afterwards. -/
def route_by_clusters (records : List FaceRec) (labels : List Int)
    (thr : Int) (fs0 : List Dst) : RouteResult :=
  let pairs := records.zip labels
  let names := clusterToName pairs thr
  let ex := execOps fs0 (allOps pairs thr)
  { dirs := [[], ["__unknown__"], ["__group_only__"]] ++ names.map (fun p => [p.2])
    fs := addFile ex.1 reportDst
    copies := ex.2
    log := routeLog pairs thr
    names := names
    eligible := eligiblePresent pairs thr }

/-! ## Extraction (`collect_faces`) and clustering (`cluster_faces`) -/

/-- Output of the external face detector for one face. -/
structure Face where
  bbox : List Int
  score : Int
  embedding : List Int
deriving DecidableEq, Repr

/-- One input image together with the externally computed data the
extraction loop consumes: whether the Laplacian-variance blur check
passes, and the detector's face list. -/
structure ImgInput where
  path : ImgPath
  blurPass : Bool
  faces : List Face
deriving DecidableEq, Repr

/-- `collect_faces`: blurred images are skipped silently; otherwise one
`FaceRec` per detected face, with `faces_in_image` the face count of the
image.  An image with zero detected faces contributes no record. -/
def collect_faces (imgs : List ImgInput) : List FaceRec :=
  imgs.flatMap (fun im =>
    if im.blurPass then
      im.faces.enum.map (fun p =>
        { img_path := im.path
          face_index := p.1
          faces_in_image := im.faces.length
          bbox := p.2.bbox
          det_score := p.2.score
          embedding := p.2.embedding })
    else [])

/-- `cluster_faces`: the empty-input guard is the repository's own
logic; the non-empty branch delegates to sklearn's DBSCAN (external),
modelled as the oracle `dbscan` receiving `min_samples` and the records
(the eps conversion and embedding normalization are float computations
inside that call boundary). -/
def cluster_faces (dbscan : Int → List FaceRec → List Int)
    (minSamples : Int) (records : List FaceRec) : List Int :=
  if records.isEmpty then [] else dbscan minSamples records

/-- Outcome of one `main` run. -/
structure PipelineResult where
  records : List FaceRec
  dirs : List (List String)
  fs : List Dst
  report : Option (List LogRow)
  names : Option (List (Int × String))
deriving Repr

/-- `main`: extract, stop with "No usable faces found." on zero records,
otherwise cluster and route.  No parameter is validated anywhere on this
path; `minSamples` is passed through to the clustering call only. -/
def runPipeline (imgs : List ImgInput) (dbscan : Int → List FaceRec → List Int)
    (minSamples thr : Int) (fs0 : List Dst) : PipelineResult :=
  let records := collect_faces imgs
  if records.isEmpty then
    { records := records, dirs := [], fs := fs0, report := none, names := none }
  else
    let labels := cluster_faces dbscan minSamples records
    let r := route_by_clusters records labels thr fs0
    { records := records, dirs := r.dirs, fs := r.fs
      report := some r.log, names := some r.names }

/-! ## Derived definitions used by the statements -/

/-- The destination file name is a function of the source image and the
bucket: shared buckets use the unmodified basename, person buckets embed
the person name between stem and extension. -/
def canonFname (src : ImgPath) (b : String) : String :=
  if b = "__group_only__" ∨ b = "__unknown__" then src.name
  else src.stem ++ "__" ++ b ++ src.ext

/-- Minimum of a list of face counts (`0` for the empty list, which never
arises for a cluster that is present). -/
def minFaces : List Nat → Nat
  | [] => 0
  | a :: l => l.foldl min a

/-- The `faces_in_image` counts of one cluster's member records. -/
def facesOf (pairs : List (FaceRec × Int)) (lab : Int) : List Nat :=
  (pairs.filter (fun p => decide (p.2 = lab))).map (fun p => p.1.faces_in_image)

/-! ## Concrete inputs for witnesses and counterexamples -/

/-- Image `p.jpg`, a 5-face group shot. -/
def exP : ImgPath := ⟨[], "p", ".jpg"⟩

/-- Image `q.jpg`, a single-face shot. -/
def exQ : ImgPath := ⟨[], "q", ".jpg"⟩

/-- Face 0 of `p.jpg` (5 faces on the image), cluster 0. -/
def exR1 : FaceRec := ⟨exP, 0, 5, [], 0, []⟩

/-- Face 1 of `p.jpg` (5 faces on the image), cluster 1. -/
def exR2 : FaceRec := ⟨exP, 1, 5, [], 0, []⟩

/-- The only face of `q.jpg`, cluster 0. -/
def exR3 : FaceRec := ⟨exQ, 0, 1, [], 0, []⟩

/-- Records of the mixed scenario: cluster 0 is eligible through `exR3`,
cluster 1 is ineligible (its only member sits on a 5-face image). -/
def exRecs : List FaceRec := [exR1, exR2, exR3]

/-- Labels of the mixed scenario, in record order. -/
def exLabs : List Int := [0, 1, 0]

/-- Image `z.jpg`: quality-passing but zero faces detected. -/
def exZ : ImgPath := ⟨[], "z", ".jpg"⟩

/-- Image `n.jpg` with a single noise face. -/
def exN : ImgPath := ⟨[], "n", ".jpg"⟩

/-- Extraction input: one zero-face image and one single-face image. -/
def exImgsZN : List ImgInput := [⟨exZ, true, []⟩, ⟨exN, true, [⟨[], 0, []⟩]⟩]

/-- Image `a/x.jpg`. -/
def exAX : ImgPath := ⟨["a"], "x", ".jpg"⟩

/-- Image `b/x.jpg`: a different source file with the same basename. -/
def exBX : ImgPath := ⟨["b"], "x", ".jpg"⟩

/-- Two noise-only records on the two like-named images. -/
def exRecsXX : List FaceRec := [⟨exAX, 0, 1, [], 0, []⟩, ⟨exBX, 0, 1, [], 0, []⟩]

/-- Image `a.jpg` with one noise face. -/
def exA : ImgPath := ⟨[], "a", ".jpg"⟩

/-- Image `b.jpg` with one noise face. -/
def exB : ImgPath := ⟨[], "b", ".jpg"⟩

/-- Two single-noise-face records on `a.jpg` and `b.jpg`. -/
def exRecsAB : List FaceRec := [⟨exA, 0, 1, [], 0, []⟩, ⟨exB, 0, 1, [], 0, []⟩]

/-- Failure oracle: copying into `__unknown__/a.jpg` raises. -/
def exFailsA : Dst → Bool := fun d => decide (d = (("__unknown__", "a.jpg") : Dst))

/-- A detector oracle for the pipeline examples: every face is noise. -/
def exDbAllNoise : Int → List FaceRec → List Int :=
  fun _ recs => recs.map (fun _ => (-1 : Int))

/-- Pipeline extraction input with one single-face image. -/
def exImgsOne : List ImgInput := [⟨exN, true, [⟨[], 0, []⟩]⟩]

/-! ## Basic lemmas about the embedding -/

theorem mem_firstKeys {α : Type} [DecidableEq α] (l : List α) (x : α) :
    x ∈ firstKeys l ↔ x ∈ l := by
  induction l with
  | nil => simp [firstKeys]
  | cons a l ih =>
    simp only [firstKeys, List.mem_cons, List.mem_filter, ih]
    by_cases hx : x = a
    · simp [hx]
    · simp [hx]

theorem nodup_firstKeys {α : Type} [DecidableEq α] (l : List α) :
    (firstKeys l).Nodup := by
  induction l with
  | nil => simp [firstKeys]
  | cons a l ih =>
    refine List.Nodup.cons ?_ (List.Nodup.filter _ ih)
    intro hmem
    have := (List.mem_filter.mp hmem).2
    simp at this

theorem mem_execOps_fs (fs : List Dst) (ops : List CopyOp) (x : Dst) :
    x ∈ (execOps fs ops).1 ↔ x ∈ fs ∨ x ∈ ops.map CopyOp.dst := by
  induction ops generalizing fs with
  | nil => simp [execOps]
  | cons op rest ih =>
    by_cases h : op.dst ∈ fs
    · simp only [execOps, if_pos h, ih, List.map_cons, List.mem_cons]
      constructor
      · rintro (hx | hx)
        · exact Or.inl hx
        · exact Or.inr (Or.inr hx)
      · rintro (hx | hx | hx)
        · exact Or.inl hx
        · exact Or.inl (hx ▸ h)
        · exact Or.inr hx
    · simp only [execOps, if_neg h, ih, List.map_cons, List.mem_cons]
      tauto

/-- The performed copies are among the requested ones, their destinations
are pairwise distinct, and none of them already existed. -/
theorem execOps_performed (fs : List Dst) (ops : List CopyOp) :
    (∀ op ∈ (execOps fs ops).2, op ∈ ops)
    ∧ ((execOps fs ops).2.map CopyOp.dst).Nodup
    ∧ (∀ op ∈ (execOps fs ops).2, op.dst ∉ fs) := by
  induction ops generalizing fs with
  | nil => simp [execOps]
  | cons op rest ih =>
    by_cases h : op.dst ∈ fs
    · simp only [execOps, if_pos h]
      obtain ⟨h1, h2, h3⟩ := ih fs
      exact ⟨fun o ho => List.mem_cons_of_mem _ (h1 o ho), h2, h3⟩
    · simp only [execOps, if_neg h]
      obtain ⟨h1, h2, h3⟩ := ih (op.dst :: fs)
      refine ⟨?_, ?_, ?_⟩
      · intro o ho
        rcases List.mem_cons.mp ho with rfl | ho
        · exact List.mem_cons_self _ _
        · exact List.mem_cons_of_mem _ (h1 o ho)
      · refine List.Nodup.cons ?_ h2
        intro hmem
        obtain ⟨o, ho, hdo⟩ := List.mem_map.mp hmem
        exact (h3 o ho) (hdo ▸ List.mem_cons_self _ _)
      · intro o ho
        rcases List.mem_cons.mp ho with rfl | ho
        · exact h
        · intro hofs
          exact (h3 o ho) (List.mem_cons_of_mem _ hofs)

/-- If a requested copy's destination was absent, some performed copy has
that destination. -/
theorem execOps_exists_performed (fs : List Dst) (ops : List CopyOp) (op : CopyOp)
    (hmem : op ∈ ops) (habs : op.dst ∉ fs) :
    ∃ o ∈ (execOps fs ops).2, o.dst = op.dst := by
  induction ops generalizing fs with
  | nil => cases hmem
  | cons a rest ih =>
    by_cases h : a.dst ∈ fs
    · simp only [execOps, if_pos h]
      rcases List.mem_cons.mp hmem with rfl | hmem'
      · exact absurd h habs
      · exact ih fs hmem' habs
    · simp only [execOps, if_neg h]
      by_cases hda : op.dst = a.dst
      · exact ⟨a, List.mem_cons_self _ _, hda.symm⟩
      · rcases List.mem_cons.mp hmem with rfl | hmem'
        · exact absurd rfl hda
        · have habs' : op.dst ∉ a.dst :: fs := by
            intro hx
            rcases List.mem_cons.mp hx with hx | hx
            · exact hda hx
            · exact habs hx
          obtain ⟨o, ho, hdo⟩ := ih (a.dst :: fs) hmem' habs'
          exact ⟨o, List.mem_cons_of_mem _ ho, hdo⟩

/-- The no-failure oracle recovers the total execution. -/
theorem execOpsE_no_fail (fs : List Dst) (ops : List CopyOp) :
    execOpsE (fun _ => false) fs ops = Except.ok (execOps fs ops) := by
  induction ops generalizing fs with
  | nil => rfl
  | cons op rest ih =>
    by_cases h : op.dst ∈ fs
    · simp [execOpsE, execOps, if_pos h, ih]
    · simp [execOpsE, execOps, if_neg h, ih, Except.map]

/-- A person folder name never equals the shared group-only bucket name. -/
theorem personStr_ne_group (s : String) : "person_" ++ s ≠ "__group_only__" := by
  intro h
  have hd : ("person_" ++ s).data = "__group_only__".data := by rw [h]
  rw [String.data_append] at hd
  have h1 : "person_".data = ['p', 'e', 'r', 's', 'o', 'n', '_'] := rfl
  have h2 : "__group_only__".data
      = ['_', '_', 'g', 'r', 'o', 'u', 'p', '_', 'o', 'n', 'l', 'y', '_', '_'] := rfl
  rw [h1, h2] at hd
  simp at hd

/-- A person folder name never equals the shared unknown bucket name. -/
theorem personStr_ne_unknown (s : String) : "person_" ++ s ≠ "__unknown__" := by
  intro h
  have hd : ("person_" ++ s).data = "__unknown__".data := by rw [h]
  rw [String.data_append] at hd
  have h1 : "person_".data = ['p', 'e', 'r', 's', 'o', 'n', '_'] := rfl
  have h2 : "__unknown__".data
      = ['_', '_', 'u', 'n', 'k', 'n', 'o', 'w', 'n', '_', '_'] := rfl
  rw [h1, h2] at hd
  simp at hd

/-- A successful association-list lookup returns one of the stored values. -/
theorem lookup_mem_snd {α β : Type} [BEq α] (l : List (α × β)) (k : α) (v : β)
    (h : l.lookup k = some v) : v ∈ l.map (fun p => p.2) := by
  induction l with
  | nil => simp [List.lookup] at h
  | cons p l ih =>
    obtain ⟨a, b⟩ := p
    rw [List.lookup] at h
    split at h
    · cases h
      exact List.mem_cons_self _ _
    · exact List.mem_cons_of_mem _ (ih h)

/-- Every name handed out by `cluster_to_name` is the default or a
`person_`-prefixed name. -/
theorem nameOf_cases (pairs : List (FaceRec × Int)) (thr : Int) (lab : Int) :
    nameOf pairs thr lab = "" ∨ ∃ i, nameOf pairs thr lab = "person_" ++ pad3 i := by
  unfold nameOf
  cases hl : (clusterToName pairs thr).lookup lab with
  | none => exact Or.inl rfl
  | some v =>
    refine Or.inr ?_
    have hv := lookup_mem_snd _ _ _ hl
    obtain ⟨pr, hpr, hpr2⟩ := List.mem_map.mp hv
    obtain ⟨q, _, hq2⟩ := List.mem_map.mp hpr
    exact ⟨q.1, by rw [Option.getD_some, ← hpr2, ← hq2]⟩

/-- Person folder names never equal the group-only bucket name. -/
theorem nameOf_ne_group (pairs : List (FaceRec × Int)) (thr : Int) (lab : Int) :
    nameOf pairs thr lab ≠ "__group_only__" := by
  rcases nameOf_cases pairs thr lab with h | ⟨i, h⟩
  · rw [h]; decide
  · rw [h]; exact personStr_ne_group _

/-- Person folder names never equal the unknown bucket name. -/
theorem nameOf_ne_unknown (pairs : List (FaceRec × Int)) (thr : Int) (lab : Int) :
    nameOf pairs thr lab ≠ "__unknown__" := by
  rcases nameOf_cases pairs thr lab with h | ⟨i, h⟩
  · rw [h]; decide
  · rw [h]; exact personStr_ne_unknown _

/-- Every routing copy's destination file name is determined by its
source image and its bucket. -/
theorem allOps_fname (pairs : List (FaceRec × Int)) (thr : Int) :
    ∀ op ∈ allOps pairs thr, op.fname = canonFname op.src op.bucket := by
  intro op hop
  rcases List.mem_append.mp hop with hop | hop
  · rcases List.mem_append.mp hop with hop | hop
    · obtain ⟨src, _, hop⟩ := List.mem_flatMap.mp hop
      obtain ⟨lab, _, rfl⟩ := List.mem_map.mp hop
      simp only [canonFname]
      rw [if_neg]
      rintro (h | h)
      · exact nameOf_ne_group pairs thr lab h
      · exact nameOf_ne_unknown pairs thr lab h
    · obtain ⟨src, _, rfl⟩ := List.mem_map.mp hop
      simp [canonFname]
  · obtain ⟨src, _, rfl⟩ := List.mem_map.mp hop
    simp [canonFname]

/-- A copy into a shared bucket always targets the original basename. -/
theorem allOps_shared_fname (pairs : List (FaceRec × Int)) (thr : Int) (op : CopyOp)
    (hop : op ∈ allOps pairs thr)
    (hb : op.bucket = "__group_only__" ∨ op.bucket = "__unknown__") :
    op.fname = op.src.name := by
  rw [allOps_fname pairs thr op hop, canonFname, if_pos hb]

/-- A list whose images under `f` are pairwise distinct holds at most one
element that `p` accepts, when `p` forces a fixed image `d`. -/
theorem length_filter_le_one {α β : Type} (L : List α) (f : α → β) (p : α → Bool) (d : β)
    (hnd : (L.map f).Nodup) (hp : ∀ a ∈ L, p a = true → f a = d) :
    (L.filter p).length ≤ 1 := by
  induction L with
  | nil => simp
  | cons a L ih =>
    rw [List.map_cons, List.nodup_cons] at hnd
    by_cases hpa : p a = true
    · rw [List.filter_cons_of_pos hpa]
      have hL : L.filter p = [] := by
        rw [List.filter_eq_nil_iff]
        intro x hx hpx
        have h1 : f x = d := hp x (List.mem_cons_of_mem _ hx) hpx
        have h2 : f a = d := hp a (List.mem_cons_self _ _) hpa
        exact hnd.1 (h2 ▸ h1 ▸ List.mem_map_of_mem f hx)
      rw [hL]
      simp
    · rw [List.filter_cons_of_neg (by simpa using hpa)]
      exact ih hnd.2 (fun x hx => hp x (List.mem_cons_of_mem _ hx))

/-- Filtering a flat map over distinct keys by one key keeps exactly that
key's block, when every generated element remembers its key. -/
theorem filter_src_flatMap {α β : Type} [DecidableEq α] (keys : List α) (f : α → List β)
    (g : β → α) (s : α) (hg : ∀ k ∈ keys, ∀ op ∈ f k, g op = k) (hk : keys.Nodup) :
    (keys.flatMap f).filter (fun op => decide (g op = s))
      = if s ∈ keys then f s else [] := by
  induction keys with
  | nil => simp
  | cons k ks ih =>
    rw [List.flatMap_cons, List.filter_append, List.nodup_cons] at *
    have hgk : ∀ op ∈ f k, g op = k := hg k (List.mem_cons_self _ _)
    have hg' : ∀ q ∈ ks, ∀ op ∈ f q, g op = q :=
      fun q hq => hg q (List.mem_cons_of_mem _ hq)
    by_cases hks : s = k
    · subst hks
      have h1 : (f s).filter (fun op => decide (g op = s)) = f s := by
        rw [List.filter_eq_self]
        intro op hop
        simp [hgk op hop]
      have h2 : (ks.flatMap f).filter (fun op => decide (g op = s)) = [] := by
        rw [ih hg' hk.2, if_neg hk.1]
      rw [h1, h2, if_pos (List.mem_cons_self _ _), List.append_nil]
    · have h1 : (f k).filter (fun op => decide (g op = s)) = [] := by
        rw [List.filter_eq_nil_iff]
        intro op hop
        simp [hgk op hop]
        exact fun h => hks h.symm
      rw [h1, List.nil_append, ih hg' hk.2]
      by_cases hmem : s ∈ ks
      · rw [if_pos hmem, if_pos (List.mem_cons_of_mem _ hmem)]
      · rw [if_neg hmem, if_neg ?_]
        intro h
        rcases List.mem_cons.mp h with h | h
        · exact hks h
        · exact hmem h

/-- Filtering a map over distinct keys by one key keeps exactly that
key's element. -/
theorem filter_src_map {α β : Type} [DecidableEq α] (keys : List α) (f : α → β)
    (g : β → α) (s : α) (hg : ∀ k ∈ keys, g (f k) = k) (hk : keys.Nodup) :
    (keys.map f).filter (fun op => decide (g op = s))
      = if s ∈ keys then [f s] else [] := by
  induction keys with
  | nil => simp
  | cons k ks ih =>
    rw [List.map_cons, List.filter_cons, List.nodup_cons] at *
    have hgk : g (f k) = k := hg k (List.mem_cons_self _ _)
    have hg' : ∀ q ∈ ks, g (f q) = q := fun q hq => hg q (List.mem_cons_of_mem _ hq)
    by_cases hks : s = k
    · subst hks
      rw [if_pos (by simp [hgk]), ih hg' hk.2, if_neg hk.1,
        if_pos (List.mem_cons_self _ _)]
    · rw [if_neg (by simp [hgk]; exact fun h => hks h.symm), ih hg' hk.2]
      by_cases hmem : s ∈ ks
      · rw [if_pos hmem, if_pos (List.mem_cons_of_mem _ hmem)]
      · rw [if_neg hmem, if_neg ?_]
        intro h
        rcases List.mem_cons.mp h with h | h
        · exact hks h
        · exact hmem h

/-- The copies whose source is a given image: its person copies, then its
group-only copy if staged, then its unknown copy if staged. -/
theorem allOps_filter_src (pairs : List (FaceRec × Int)) (thr : Int) (src : ImgPath) :
    (allOps pairs thr).filter (fun op => decide (op.src = src))
      = (if src ∈ imageKeys pairs then personOpsFor pairs thr src else [])
        ++ (if src ∈ groupStaged pairs thr
              then [⟨src, "__group_only__", src.name⟩] else [])
        ++ (if src ∈ unknownStaged pairs
              then [⟨src, "__unknown__", src.name⟩] else []) := by
  unfold allOps personOps groupOps unknownOps
  rw [List.filter_append, List.filter_append]
  congr 1
  · congr 1
    · exact filter_src_flatMap (imageKeys pairs) (personOpsFor pairs thr) CopyOp.src src
        (by
          intro k _ op hop
          obtain ⟨lab, _, rfl⟩ := List.mem_map.mp hop
          rfl)
        (nodup_firstKeys _)
    · exact filter_src_map (groupStaged pairs thr) _ CopyOp.src src
        (by intro k _; rfl) (List.Nodup.filter _ (nodup_firstKeys _))
  · exact filter_src_map (unknownStaged pairs) _ CopyOp.src src
      (by intro k _; rfl) (List.Nodup.filter _ (nodup_firstKeys _))

/-- The minimum face count never exceeds a member's face count. -/
theorem minFaces_le (l : List Nat) (x : Nat) (hx : x ∈ l) : minFaces l ≤ x := by
  cases l with
  | nil => cases hx
  | cons a l =>
    have key : ∀ (l : List Nat) (a : Nat),
        l.foldl min a ≤ a ∧ ∀ y ∈ l, l.foldl min a ≤ y := by
      intro l
      induction l with
      | nil => simp
      | cons b l ih =>
        intro a
        obtain ⟨h1, h2⟩ := ih (min a b)
        refine ⟨le_trans h1 (min_le_left _ _), ?_⟩
        intro y hy
        rcases List.mem_cons.mp hy with rfl | hy
        · exact le_trans h1 (min_le_right _ _)
        · exact h2 y hy
    rcases List.mem_cons.mp hx with rfl | hx
    · exact (key l x).1
    · exact (key l a).2 x hx

/-- The minimum face count of a non-empty member list is attained. -/
theorem minFaces_mem (l : List Nat) (h : l ≠ []) : minFaces l ∈ l := by
  cases l with
  | nil => exact absurd rfl h
  | cons a l =>
    have key : ∀ (l : List Nat) (a : Nat), l.foldl min a ∈ a :: l := by
      intro l
      induction l with
      | nil => simp
      | cons b l ih =>
        intro a
        have hm := ih (min a b)
        rcases List.mem_cons.mp hm with hm | hm
        · rw [show (b :: l).foldl min a = l.foldl min (min a b) from rfl, hm]
          rcases min_choice a b with hc | hc
          · rw [hc]; exact List.mem_cons_self _ _
          · rw [hc]; exact List.mem_cons_of_mem _ (List.mem_cons_self _ _)
        · exact List.mem_cons_of_mem _ (List.mem_cons_of_mem _ hm)
    exact key l a

/-- Eligibility is membership-invariant: permuting the (record, label)
pairs does not change which labels are eligible. -/
theorem isEligibleB_perm (pairs pairs' : List (FaceRec × Int)) (thr : Int)
    (hperm : pairs.Perm pairs') (lab : Int) :
    isEligibleB pairs thr lab = isEligibleB pairs' thr lab := by
  rw [Bool.eq_iff_iff]
  simp only [isEligibleB, Bool.and_eq_true, List.any_eq_true]
  constructor
  · rintro ⟨h1, p, hp, h2⟩
    exact ⟨h1, p, hperm.mem_iff.mp hp, h2⟩
  · rintro ⟨h1, p, hp, h2⟩
    exact ⟨h1, p, hperm.mem_iff.mpr hp, h2⟩

/-- Eligibility unfolded: a label is eligible exactly when it is not the
noise sentinel and some member record's face count is at most the
threshold. -/
theorem isEligibleB_iff (pairs : List (FaceRec × Int)) (thr : Int) (lab : Int) :
    isEligibleB pairs thr lab = true
      ↔ (lab ≠ -1 ∧ ∃ n ∈ facesOf pairs lab, (n : Int) ≤ thr) := by
  simp only [isEligibleB, Bool.and_eq_true, List.any_eq_true, decide_eq_true_eq,
    facesOf, List.mem_map, List.mem_filter]
  constructor
  · rintro ⟨h1, p, hp, h2, h3⟩
    exact ⟨h1, p.1.faces_in_image, ⟨p, ⟨hp, by simpa using h2⟩, rfl⟩, h3⟩
  · rintro ⟨h1, n, ⟨p, ⟨hp, h2⟩, rfl⟩, h3⟩
    exact ⟨h1, p, hp, by simpa using h2, h3⟩

/-- Claim C2: for every non-noise cluster label with at least one member
record, the cluster is classified eligible iff some member has
`faces_in_image <= group_threshold`, equivalently iff the minimum face
count over its members is at most the threshold; the eligible set used
by routing holds exactly the present labels passing this test, and the
noise label is never eligible. -/
theorem claim_C2 (records : List FaceRec) (labels : List Int) (thr : Int) :
    (∀ lab : Int, lab ≠ -1 → facesOf (records.zip labels) lab ≠ [] →
      ((isEligibleB (records.zip labels) thr lab = true
          ↔ ∃ n ∈ facesOf (records.zip labels) lab, (n : Int) ≤ thr)
        ∧ (isEligibleB (records.zip labels) thr lab = true
          ↔ (minFaces (facesOf (records.zip labels) lab) : Int) ≤ thr)))
    ∧ (∀ lab : Int, lab ∈ eligiblePresent (records.zip labels) thr
        ↔ (lab ∈ (records.zip labels).map (fun p => p.2)
            ∧ isEligibleB (records.zip labels) thr lab = true))
    ∧ isEligibleB (records.zip labels) thr (-1) = false := by
  refine ⟨?_, ?_, ?_⟩
  · intro lab hlab hne
    have hiff := isEligibleB_iff (records.zip labels) thr lab
    have h1 : isEligibleB (records.zip labels) thr lab = true
        ↔ ∃ n ∈ facesOf (records.zip labels) lab, (n : Int) ≤ thr := by
      rw [hiff]
      exact and_iff_right hlab
    refine ⟨h1, h1.trans ?_⟩
    constructor
    · rintro ⟨n, hn, hle⟩
      exact le_trans (by exact_mod_cast minFaces_le _ n hn) hle
    · intro h
      exact ⟨minFaces (facesOf (records.zip labels) lab), minFaces_mem _ hne, h⟩
  · intro lab
    simp [eligiblePresent, List.mem_filter, mem_firstKeys]
  · simp [isEligibleB]

/-- Witness for C2 on the mixed scenario: cluster 0 is present with
minimum face count 1 and is eligible at threshold 3. -/
theorem claim_C2_witness :
    isEligibleB (exRecs.zip exLabs) 3 0 = true
      ↔ (minFaces (facesOf (exRecs.zip exLabs) 0) : Int) ≤ 3 :=
  ((claim_C2 exRecs exLabs 3).1 0 (by decide) (by decide)).2

/-- Claim C6: naming is deterministic and order-independent.  Permuting
the (record, label) pairs leaves `cluster_to_name` unchanged; the
underlying label list is the eligible set sorted ascending; and the
assigned names are `person_` with sequential zero-padded indices in that
sorted order. -/
theorem claim_C6 (records records' : List FaceRec) (labels labels' : List Int) (thr : Int)
    (hperm : (records.zip labels).Perm (records'.zip labels')) :
    clusterToName (records.zip labels) thr = clusterToName (records'.zip labels') thr
    ∧ (eligSorted (records.zip labels) thr).Sorted (· ≤ ·)
    ∧ (eligSorted (records.zip labels) thr).Perm (eligiblePresent (records.zip labels) thr)
    ∧ (clusterToName (records.zip labels) thr).map (fun p => p.2)
        = (List.range (eligSorted (records.zip labels) thr).length).map
            (fun i => "person_" ++ pad3 i) := by
  have hElig : ∀ lab, isEligibleB (records.zip labels) thr lab
      = isEligibleB (records'.zip labels') thr lab :=
    isEligibleB_perm _ _ thr hperm
  have hnd1 : (eligiblePresent (records.zip labels) thr).Nodup :=
    List.Nodup.filter _ (nodup_firstKeys _)
  have hnd2 : (eligiblePresent (records'.zip labels') thr).Nodup :=
    List.Nodup.filter _ (nodup_firstKeys _)
  have hPresentPerm : (eligiblePresent (records.zip labels) thr).Perm
      (eligiblePresent (records'.zip labels') thr) := by
    rw [List.perm_ext_iff_of_nodup hnd1 hnd2]
    intro lab
    simp only [eligiblePresent, List.mem_filter, mem_firstKeys, List.mem_map]
    constructor
    · rintro ⟨⟨p, hp, h1⟩, h2⟩
      exact ⟨⟨p, hperm.mem_iff.mp hp, h1⟩, (hElig lab) ▸ h2⟩
    · rintro ⟨⟨p, hp, h1⟩, h2⟩
      exact ⟨⟨p, hperm.mem_iff.mpr hp, h1⟩, (hElig lab).symm ▸ h2⟩
  have hSortEq : eligSorted (records.zip labels) thr
      = eligSorted (records'.zip labels') thr :=
    List.eq_of_perm_of_sorted
      (((List.perm_insertionSort _ _).trans hPresentPerm).trans
        (List.perm_insertionSort _ _).symm)
      (List.sorted_insertionSort _ _) (List.sorted_insertionSort _ _)
  refine ⟨by rw [clusterToName, clusterToName, hSortEq], List.sorted_insertionSort _ _,
    List.perm_insertionSort _ _, ?_⟩
  rw [clusterToName, List.map_map]
  have : ((fun p => p.2) ∘ fun p : Nat × Int => (p.2, "person_" ++ pad3 p.1))
      = (fun i => "person_" ++ pad3 i) ∘ Prod.fst := rfl
  rw [this, ← List.map_map, List.enum_map_fst]

/-- Witness for C6: the mixed-scenario pairs and a reordering of them
receive the same `cluster_to_name` mapping. -/
theorem claim_C6_witness :
    clusterToName ([exR1, exR2, exR3].zip [0, 1, 0]) 3
      = clusterToName ([exR3, exR2, exR1].zip [0, 1, 0]) 3 :=
  (claim_C6 [exR1, exR2, exR3] [exR3, exR2, exR1] [0, 1, 0] [0, 1, 0] 3 (by decide)).1

/-- Claim C10: every `route_by_clusters` call creates the output root,
the unknown bucket and the group-only bucket first, before any record is
examined — also on a call with zero records, where they are the only
directories created. -/
theorem claim_C10 (records : List FaceRec) (labels : List Int) (thr : Int) (fs0 : List Dst) :
    (route_by_clusters records labels thr fs0).dirs.take 3
        = [[], ["__unknown__"], ["__group_only__"]]
    ∧ (route_by_clusters [] [] thr fs0).dirs
        = [[], ["__unknown__"], ["__group_only__"]] := by
  constructor
  · rfl
  · rfl

/-- Unfolding of the `copies` field of a routing run. -/
theorem route_copies_eq (records : List FaceRec) (labels : List Int) (thr : Int)
    (fs0 : List Dst) :
    (route_by_clusters records labels thr fs0).copies
      = (execOps fs0 (allOps (records.zip labels) thr)).2 := rfl

/-- Unfolding of the `fs` field of a routing run. -/
theorem route_fs_eq (records : List FaceRec) (labels : List Int) (thr : Int)
    (fs0 : List Dst) :
    (route_by_clusters records labels thr fs0).fs
      = addFile (execOps fs0 (allOps (records.zip labels) thr)).1 reportDst := rfl

/-- Membership in a file set after one insertion. -/
theorem mem_addFile (fs : List Dst) (d x : Dst) :
    x ∈ addFile fs d ↔ x = d ∨ x ∈ fs := by
  unfold addFile
  by_cases h : d ∈ fs
  · rw [if_pos h]
    constructor
    · exact Or.inr
    · rintro (rfl | hx)
      · exact h
      · exact hx
  · rw [if_neg h]
    exact List.mem_cons

/-- Claim C1: in any single routing run, at most one physical copy is
made per (source image, destination bucket) pair; and re-running the
same routing against the resulting output root reproduces exactly the
same set of files and the same report rows. -/
theorem claim_C1 (records : List FaceRec) (labels : List Int) (thr : Int)
    (fs0 : List Dst) (s : ImgPath) (b : String) (x : Dst) :
    ((route_by_clusters records labels thr fs0).copies.filter
        (fun op => decide (op.src = s) && decide (op.bucket = b))).length ≤ 1
    ∧ (x ∈ (route_by_clusters records labels thr
            (route_by_clusters records labels thr fs0).fs).fs
        ↔ x ∈ (route_by_clusters records labels thr fs0).fs)
    ∧ (route_by_clusters records labels thr
          (route_by_clusters records labels thr fs0).fs).log
        = (route_by_clusters records labels thr fs0).log := by
  refine ⟨?_, ?_, rfl⟩
  · rw [route_copies_eq]
    have hperf := execOps_performed fs0 (allOps (records.zip labels) thr)
    apply length_filter_le_one _ CopyOp.dst _ ((b, canonFname s b) : Dst) hperf.2.1
    intro op hop hpred
    have hmem := hperf.1 op hop
    have hf := allOps_fname _ thr op hmem
    simp only [Bool.and_eq_true, decide_eq_true_eq] at hpred
    obtain ⟨hs, hb⟩ := hpred
    rw [CopyOp.dst, hf, hs, hb]
  · have hm : ∀ (g : List Dst),
        x ∈ (route_by_clusters records labels thr g).fs
          ↔ (x = reportDst ∨ x ∈ g
              ∨ x ∈ (allOps (records.zip labels) thr).map CopyOp.dst) := by
      intro g
      rw [route_fs_eq, mem_addFile, mem_execOps_fs]
    rw [hm, hm]
    tauto

/-- The label set of an image that holds at least one record is
non-empty. -/
theorem labsOnImage_ne_nil (pairs : List (FaceRec × Int)) (src : ImgPath)
    (h : src ∈ imageKeys pairs) : labsOnImage pairs src ≠ [] := by
  obtain ⟨p, hp, hps⟩ := List.mem_map.mp ((mem_firstKeys _ _).mp h)
  apply List.ne_nil_of_mem (a := p.2)
  rw [labsOnImage, mem_firstKeys]
  exact List.mem_map_of_mem _ (List.mem_filter.mpr ⟨hp, by simp [hps]⟩)

/-- At most one copy of an image goes into a given shared bucket. -/
theorem filter_bucket_count (pairs : List (FaceRec × Int)) (thr : Int) (src : ImgPath)
    (h : src ∈ imageKeys pairs) (b : String)
    (hb : b = "__group_only__" ∨ b = "__unknown__") :
    ((allOps pairs thr).filter
        (fun op => decide (op.bucket = b) && decide (op.src = src))).length ≤ 1 := by
  rw [← List.filter_filter, allOps_filter_src, if_pos h, List.filter_append,
    List.filter_append, List.length_append, List.length_append]
  have hperson : ((personOpsFor pairs thr src).filter
      (fun op => decide (op.bucket = b))).length = 0 := by
    rw [List.length_eq_zero, List.filter_eq_nil_iff]
    intro op hop
    obtain ⟨lab, _, rfl⟩ := List.mem_map.mp hop
    rcases hb with rfl | rfl
    · simp [nameOf_ne_group pairs thr lab]
    · simp [nameOf_ne_unknown pairs thr lab]
  rw [hperson]
  have hle : ∀ (c : Prop) [Decidable c] (op : CopyOp) (p : CopyOp → Bool),
      (((if c then [op] else []).filter p).length ≤ 1) := by
    intro c _ op p
    by_cases hc : c
    · rw [if_pos hc]
      exact le_trans (List.length_filter_le _ _) (by simp)
    · rw [if_neg hc]
      simp
  rcases hb with rfl | rfl
  · have hunk : (((if src ∈ unknownStaged pairs
        then [⟨src, "__unknown__", src.name⟩] else []) : List CopyOp).filter
          (fun op => decide (op.bucket = "__group_only__"))).length = 0 := by
      rw [List.length_eq_zero, List.filter_eq_nil_iff]
      intro op hop
      by_cases hc : src ∈ unknownStaged pairs
      · rw [if_pos hc] at hop
        rcases List.mem_singleton.mp hop with rfl
        simp
      · rw [if_neg hc] at hop
        cases hop
    rw [hunk]
    simpa using hle _ _ _
  · have hgrp : (((if src ∈ groupStaged pairs thr
        then [⟨src, "__group_only__", src.name⟩] else []) : List CopyOp).filter
          (fun op => decide (op.bucket = "__unknown__"))).length = 0 := by
      rw [List.length_eq_zero, List.filter_eq_nil_iff]
      intro op hop
      by_cases hc : src ∈ groupStaged pairs thr
      · rw [if_pos hc] at hop
        rcases List.mem_singleton.mp hop with rfl
        simp
      · rw [if_neg hc] at hop
        cases hop
    rw [hgrp]
    simpa using hle _ _ _

/-- An image all of whose labels are noise triggers exactly the single
unknown-bucket copy and nothing else. -/
theorem opsFor_unknown_only (pairs : List (FaceRec × Int)) (thr : Int) (src : ImgPath)
    (h : src ∈ imageKeys pairs) (hu : unknownPred pairs src = true) :
    (allOps pairs thr).filter (fun op => decide (op.src = src))
      = [⟨src, "__unknown__", src.name⟩] := by
  have hall := List.all_eq_true.mp hu
  have hperson : personOpsFor pairs thr src = [] := by
    rw [personOpsFor, List.map_eq_nil_iff, List.filter_eq_nil_iff]
    intro lab hlab
    have : lab = -1 := by simpa using hall lab hlab
    subst this
    simp [isEligibleB]
  have hgroup : src ∉ groupStaged pairs thr := by
    intro hmem
    obtain ⟨l, hl, hpred⟩ := List.any_eq_true.mp (List.mem_filter.mp hmem).2
    have : l = -1 := by simpa using hall l hl
    subst this
    simp at hpred
  have hunk : src ∈ unknownStaged pairs := List.mem_filter.mpr ⟨h, hu⟩
  rw [allOps_filter_src, if_pos h, hperson, if_neg hgroup, if_pos hunk]
  rfl

/-- An image without records triggers no copy at all. -/
theorem opsFor_not_key (pairs : List (FaceRec × Int)) (thr : Int) (src : ImgPath)
    (h : src ∉ imageKeys pairs) :
    (allOps pairs thr).filter (fun op => decide (op.src = src)) = [] := by
  have hgroup : src ∉ groupStaged pairs thr :=
    fun hmem => h (List.mem_filter.mp hmem).1
  have hunk : src ∉ unknownStaged pairs :=
    fun hmem => h (List.mem_filter.mp hmem).1
  rw [allOps_filter_src, if_neg h, if_neg hgroup, if_neg hunk]
  rfl

/-- Counterexample to C3 as stated: in the mixed scenario image `p.jpg`
holds an eligible-cluster face and an ineligible-cluster face, so one
routing run physically copies it both into the person folder and into
the group-only bucket — two bucket categories, not "exactly one". -/
theorem claim_C3_counterexample :
    ((route_by_clusters exRecs exLabs 3 []).copies.any
        (fun op => decide (op.src = exP) && decide (op.bucket = "person_000"))) = true
    ∧ ((route_by_clusters exRecs exLabs 3 []).copies.any
        (fun op => decide (op.src = exP) && decide (op.bucket = "__group_only__"))) = true := by
  constructor
  · rfl
  · rfl

/-- Claim C3 (amended): every source image holding at least one
quality-passing face record is routed into at least one bucket; its
group-only and unknown bucket stagings are at most one copy each; and an
image staged for unknown receives exactly that one copy and no other. -/
theorem claim_C3 (records : List FaceRec) (labels : List Int) (thr : Int) (src : ImgPath)
    (h : src ∈ imageKeys (records.zip labels)) :
    (∃ op ∈ allOps (records.zip labels) thr, op.src = src)
    ∧ ((allOps (records.zip labels) thr).filter
        (fun op => decide (op.bucket = "__group_only__")
          && decide (op.src = src))).length ≤ 1
    ∧ ((allOps (records.zip labels) thr).filter
        (fun op => decide (op.bucket = "__unknown__")
          && decide (op.src = src))).length ≤ 1
    ∧ (unknownPred (records.zip labels) src = true →
        (allOps (records.zip labels) thr).filter (fun op => decide (op.src = src))
          = [⟨src, "__unknown__", src.name⟩]) := by
  refine ⟨?_, filter_bucket_count _ thr src h _ (Or.inl rfl),
    filter_bucket_count _ thr src h _ (Or.inr rfl),
    fun hu => opsFor_unknown_only _ thr src h hu⟩
  by_cases hu : unknownPred (records.zip labels) src = true
  · refine ⟨⟨src, "__unknown__", src.name⟩, ?_, rfl⟩
    exact List.mem_append.mpr (Or.inr
      (List.mem_map_of_mem _ (List.mem_filter.mpr ⟨h, hu⟩)))
  · have hex : ∃ l ∈ labsOnImage (records.zip labels) src, l ≠ -1 := by
      by_contra hc
      push_neg at hc
      apply hu
      rw [unknownPred, List.all_eq_true]
      intro l hl
      simpa using hc l hl
    obtain ⟨l, hl, hlne⟩ := hex
    by_cases he : ∃ l' ∈ labsOnImage (records.zip labels) src,
        isEligibleB (records.zip labels) thr l' = true
    · obtain ⟨l', hl', hel⟩ := he
      refine ⟨_, List.mem_append.mpr (Or.inl (List.mem_append.mpr (Or.inl
        (List.mem_flatMap.mpr ⟨src, h,
          List.mem_map_of_mem _ (List.mem_filter.mpr ⟨hl', hel⟩)⟩)))), rfl⟩
    · push_neg at he
      have hgp : groupPred (records.zip labels) thr src = true := by
        rw [groupPred, List.any_eq_true]
        refine ⟨l, hl, ?_⟩
        have := he l hl
        simp only [Bool.and_eq_true, decide_eq_true_eq, Bool.not_eq_true']
        exact ⟨hlne, by simpa using this⟩
      refine ⟨⟨src, "__group_only__", src.name⟩, ?_, rfl⟩
      exact List.mem_append.mpr (Or.inl (List.mem_append.mpr (Or.inr
        (List.mem_map_of_mem _ (List.mem_filter.mpr ⟨h, hgp⟩)))))

/-- Witness for C3 on the mixed scenario at image `p.jpg`. -/
theorem claim_C3_witness :
    (∃ op ∈ allOps (exRecs.zip exLabs) 3, op.src = exP)
    ∧ ((allOps (exRecs.zip exLabs) 3).filter
        (fun op => decide (op.bucket = "__group_only__")
          && decide (op.src = exP))).length ≤ 1
    ∧ ((allOps (exRecs.zip exLabs) 3).filter
        (fun op => decide (op.bucket = "__unknown__")
          && decide (op.src = exP))).length ≤ 1
    ∧ (unknownPred (exRecs.zip exLabs) exP = true →
        (allOps (exRecs.zip exLabs) 3).filter (fun op => decide (op.src = exP))
          = [⟨exP, "__unknown__", exP.name⟩]) :=
  claim_C3 exRecs exLabs 3 exP (by decide)

/-- Counterexample to C4 as stated: image `z.jpg` passes the quality
filter but has zero detected faces, so extraction yields no record for
it and routing (run here on the extracted records, with the single
`n.jpg` face labelled noise) performs no copy of `z.jpg` at all — not
one copy into the unknown bucket as the claim demands. -/
theorem claim_C4_counterexample :
    collect_faces exImgsZN = [⟨exN, 0, 1, [], 0, []⟩]
    ∧ ((route_by_clusters (collect_faces exImgsZN) [-1] 3 []).copies.filter
        (fun op => decide (op.src = exZ))).length = 0
    ∧ ((route_by_clusters (collect_faces exImgsZN) [-1] 3 []).copies.filter
        (fun op => decide (op.src = exN)
          && decide (op.bucket = "__unknown__"))).length = 1 := by
  refine ⟨rfl, rfl, rfl⟩

/-- Claim C4 (amended): a source image with at least one face record all
of whose labels are noise is copied exactly once, into the shared
unknown bucket; a source image with no face record (zero detected faces
or skipped by the quality filter) never enters routing and is copied
nowhere. -/
theorem claim_C4 (records : List FaceRec) (labels : List Int) (thr : Int) (src : ImgPath)
    (h : src ∈ imageKeys (records.zip labels))
    (hu : unknownPred (records.zip labels) src = true) :
    (allOps (records.zip labels) thr).filter (fun op => decide (op.src = src))
      = [⟨src, "__unknown__", src.name⟩]
    ∧ ∀ src' : ImgPath, src' ∉ imageKeys (records.zip labels) →
        (allOps (records.zip labels) thr).filter (fun op => decide (op.src = src')) = [] :=
  ⟨opsFor_unknown_only _ thr src h hu,
   fun src' hs => opsFor_not_key _ thr src' hs⟩

/-- Witness for C4: the noise-only image `n.jpg` of the zero-face
scenario gets exactly the one unknown copy, and the zero-face image
`z.jpg` gets none. -/
theorem claim_C4_witness :
    ((allOps ((collect_faces exImgsZN).zip [-1]) 3).filter
        (fun op => decide (op.src = exN)) = [⟨exN, "__unknown__", exN.name⟩])
    ∧ (allOps ((collect_faces exImgsZN).zip [-1]) 3).filter
        (fun op => decide (op.src = exZ)) = [] :=
  ⟨(claim_C4 (collect_faces exImgsZN) [-1] 3 exN (by decide) (by decide)).1,
   (claim_C4 (collect_faces exImgsZN) [-1] 3 exN (by decide) (by decide)).2 exZ (by decide)⟩

/-- Claim C9: when two distinct source images share a basename and both
are staged for the same shared bucket, only one destination file is ever
written there — exactly one physical copy targets that destination, and
the two images are never both copied into that bucket (the later one is
silently skipped by the existence check). -/
theorem claim_C9 (records : List FaceRec) (labels : List Int) (thr : Int)
    (fs0 : List Dst) (s1 s2 : ImgPath) (b : String)
    (hb : b = "__group_only__" ∨ b = "__unknown__")
    (h1 : (⟨s1, b, s1.name⟩ : CopyOp) ∈ allOps (records.zip labels) thr)
    (h2 : (⟨s2, b, s2.name⟩ : CopyOp) ∈ allOps (records.zip labels) thr)
    (hne : s1 ≠ s2) (hname : s1.name = s2.name)
    (hfs : ((b, s1.name) : Dst) ∉ fs0) :
    (((route_by_clusters records labels thr fs0).copies.filter
        (fun op => decide (op.dst = ((b, s1.name) : Dst)))).length = 1)
    ∧ ¬((((route_by_clusters records labels thr fs0).copies.any
          (fun op => decide (op.src = s1) && decide (op.bucket = b))) = true)
        ∧ (((route_by_clusters records labels thr fs0).copies.any
          (fun op => decide (op.src = s2) && decide (op.bucket = b))) = true)) := by
  rw [route_copies_eq]
  have hperf := execOps_performed fs0 (allOps (records.zip labels) thr)
  constructor
  · apply le_antisymm
    · exact length_filter_le_one _ CopyOp.dst _ ((b, s1.name) : Dst) hperf.2.1
        (fun op _ hpred => by simpa using hpred)
    · obtain ⟨o, ho, hdo⟩ := execOps_exists_performed fs0 _ _ h1 hfs
      rw [Nat.succ_le_iff, List.length_pos]
      intro hnil
      have : o ∈ ((execOps fs0 (allOps (records.zip labels) thr)).2.filter
          (fun op => decide (op.dst = ((b, s1.name) : Dst)))) :=
        List.mem_filter.mpr ⟨ho, by simpa [CopyOp.dst] using hdo⟩
      rw [hnil] at this
      cases this
  · rintro ⟨ha1, ha2⟩
    obtain ⟨o1, ho1, hp1⟩ := List.any_eq_true.mp ha1
    obtain ⟨o2, ho2, hp2⟩ := List.any_eq_true.mp ha2
    simp only [Bool.and_eq_true, decide_eq_true_eq] at hp1 hp2
    have hf1 : o1.fname = o1.src.name :=
      allOps_shared_fname _ thr o1 (hperf.1 o1 ho1) (by rw [hp1.2]; exact hb)
    have hf2 : o2.fname = o2.src.name :=
      allOps_shared_fname _ thr o2 (hperf.1 o2 ho2) (by rw [hp2.2]; exact hb)
    have hd1 : o1.dst = ((b, s1.name) : Dst) := by
      rw [CopyOp.dst, hp1.2, hf1, hp1.1]
    have hd2 : o2.dst = ((b, s1.name) : Dst) := by
      rw [CopyOp.dst, hp2.2, hf2, hp2.1, ← hname]
    have ho12 : o1 = o2 :=
      List.inj_on_of_nodup_map hperf.2.1 ho1 ho2 (hd1.trans hd2.symm)
    apply hne
    rw [← hp1.1, ← hp2.1, ho12]

/-- Witness for C9: `a/x.jpg` and `b/x.jpg`, both noise-only, are both
staged for the unknown bucket; one run on an empty output root writes
exactly one `__unknown__/x.jpg` and copies only one of the two images. -/
theorem claim_C9_witness :
    (((route_by_clusters exRecsXX [-1, -1] 3 []).copies.filter
        (fun op => decide (op.dst = (("__unknown__", "x.jpg") : Dst)))).length = 1)
    ∧ ¬((((route_by_clusters exRecsXX [-1, -1] 3 []).copies.any
          (fun op => decide (op.src = exAX)
            && decide (op.bucket = "__unknown__"))) = true)
        ∧ (((route_by_clusters exRecsXX [-1, -1] 3 []).copies.any
          (fun op => decide (op.src = exBX)
            && decide (op.bucket = "__unknown__"))) = true)) := by
  have h := claim_C9 exRecsXX [-1, -1] 3 [] exAX exBX "__unknown__"
    (Or.inr rfl) (by decide) (by decide) (by decide) (by decide) (by decide)
  exact h

/-- Counterexample to C5 as stated: two noise-only images `a.jpg` and
`b.jpg` are staged for the unknown bucket; with the copy of `a.jpg`
failing, the routing copy sequence aborts with the raised error — it
does not catch it and does not continue to `b.jpg` — although a
failure-free run would have copied `b.jpg` as well. -/
theorem claim_C5_counterexample :
    execOpsE exFailsA [] (allOps (exRecsAB.zip [-1, -1]) 3)
      = Except.error ("__unknown__", "a.jpg")
    ∧ (("__unknown__", "b.jpg") : Dst)
        ∈ (execOps [] (allOps (exRecsAB.zip [-1, -1]) 3)).1 := by
  constructor
  · rfl
  · decide

/-- Claim C5 (amended): `shutil.copy2` is not guarded by any `try` in
`route_by_clusters`, so the first copy whose destination is absent and
whose physical copy fails aborts the whole copy sequence with that
error, whatever copies remain; only in the absence of failures does
routing complete, performing the full copy set. -/
theorem claim_C5 (records : List FaceRec) (labels : List Int) (thr : Int)
    (fails : Dst → Bool) (fs fs0 : List Dst) (op : CopyOp) (rest : List CopyOp)
    (h1 : op.dst ∉ fs) (h2 : fails op.dst = true) :
    execOpsE fails fs (op :: rest) = Except.error op.dst
    ∧ execOpsE (fun _ => false) fs0 (allOps (records.zip labels) thr)
        = Except.ok (execOps fs0 (allOps (records.zip labels) thr)) := by
  constructor
  · rw [execOpsE, if_neg h1, if_pos h2]
  · exact execOpsE_no_fail fs0 (allOps (records.zip labels) thr)

/-- Witness for C5: the failing `a.jpg` copy of the counterexample
scenario, applied at the head of the unknown flush. -/
theorem claim_C5_witness :
    execOpsE exFailsA [] ((⟨exA, "__unknown__", "a.jpg"⟩ : CopyOp)
        :: [⟨exB, "__unknown__", "b.jpg"⟩])
      = Except.error (⟨exA, "__unknown__", "a.jpg"⟩ : CopyOp).dst
    ∧ execOpsE (fun _ => false) [] (allOps (exRecsAB.zip [-1, -1]) 3)
        = Except.ok (execOps [] (allOps (exRecsAB.zip [-1, -1]) 3)) :=
  claim_C5 exRecsAB [-1, -1] 3 exFailsA [] []
    ⟨exA, "__unknown__", "a.jpg"⟩ [⟨exB, "__unknown__", "b.jpg"⟩]
    (by decide) (by decide)

/-- Counterexample to C7 as stated: with `min_samples = -1` the run does
not fail fast before extraction — extraction produces records and the
pipeline proceeds through clustering and routing to a report. -/
theorem claim_C7_counterexample :
    (runPipeline exImgsOne exDbAllNoise (-1) 3 []).records ≠ []
    ∧ (runPipeline exImgsOne exDbAllNoise (-1) 3 []).report ≠ none := by
  constructor
  · decide
  · decide

/-- Claim C7 (amended): the program validates no parameter: the records
extracted by a run are those of `collect_faces` for every `min_samples`
value (negative ones included), so extraction always runs first and the
unchecked value reaches only the external clustering call afterwards. -/
theorem claim_C7 (imgs : List ImgInput) (dbscan : Int → List FaceRec → List Int)
    (ms msOther thr : Int) (fs0 : List Dst) :
    (runPipeline imgs dbscan ms thr fs0).records = collect_faces imgs
    ∧ (runPipeline imgs dbscan ms thr fs0).records
        = (runPipeline imgs dbscan msOther thr fs0).records := by
  by_cases h : (collect_faces imgs).isEmpty
  · constructor
    · rw [runPipeline, if_pos h]
    · rw [runPipeline, if_pos h, runPipeline, if_pos h]
  · constructor
    · rw [runPipeline, if_neg h]
    · rw [runPipeline, if_neg h, runPipeline, if_neg h]

/-- Claim C8: with zero extracted FaceRecords the clusterer returns the
empty label list (not an error) and the pipeline stops with the explicit
empty result: no clustering, no naming, no report rows, no directories
created, and the output root's files untouched. -/
theorem claim_C8 (imgs : List ImgInput) (dbscan : Int → List FaceRec → List Int)
    (ms thr : Int) (fs0 : List Dst) (h : collect_faces imgs = []) :
    cluster_faces dbscan ms (collect_faces imgs) = []
    ∧ runPipeline imgs dbscan ms thr fs0
        = { records := [], dirs := [], fs := fs0, report := none, names := none } := by
  constructor
  · rw [h, cluster_faces]
    rfl
  · rw [runPipeline, if_pos (by rw [h]; rfl)]
    rw [h]

/-- Witness for C8: the empty image list yields zero records, the empty
label list, and the untouched empty-result pipeline outcome. -/
theorem claim_C8_witness :
    cluster_faces exDbAllNoise 2 (collect_faces []) = []
    ∧ runPipeline [] exDbAllNoise 2 3 []
        = { records := [], dirs := [], fs := [], report := none, names := none } :=
  claim_C8 [] exDbAllNoise 2 3 [] rfl

end PhotoRouter
